import Mathlib

/-!
Verification of `src/utils/safe_eval.py` ("'Safe' python code evaluation").

The module examines a parsed `ast` tree and rejects unsafe entries before
compiling.  We give a shallow embedding of the syntax-tree shapes the checker
inspects, of the node visitor `CheckNodeVisitor`, and of the entry point
`compileChecked`, and prove the spec's claims about them.

The syntax tree: the checker distinguishes exactly three node shapes by
dedicated visitor methods (`visit_Name`, `visit_Call`, `visit_Attribute`);
every other node kind is handled uniformly by `generic_visit`, which only
looks at the node's type (against `forbidden_nodes`) and recurses into the
children.  We therefore model a node as either a `Name` (carrying its
identifier string `id`), a `Call` (carrying the callee node and argument
children), an `Attribute` (carrying the base node and the member string
`attr`), or a generic `node` carrying its type name and its child nodes in
field order.  (`ast.Name` in Python also carries a context marker child such
as `Load`; context markers have no fields and no forbidden type, so they are
omitted.  Only `ast.Name` objects have an `id` attribute, which is what
`hasattr(call.func, 'id')` tests.)
-/

mutual

inductive AST where
  | Name (id : String)
  | Call (func : AST) (args : ASTList)
  | Attribute (value : AST) (attr : String)
  | node (kind : String) (children : ASTList)
deriving DecidableEq

inductive ASTList where
  | nil
  | cons (head : AST) (tail : ASTList)
deriving DecidableEq

end

/-- Definition `forbidden_nodes` of safe_eval.py: the blacklisted node types
`ast.Exec`, `ast.Global`, `ast.Import`, `ast.ImportFrom`, by type name. -/
def forbidden_nodes : List String :=
  ["Exec", "Global", "Import", "ImportFrom"]

/-- Definition `allowed_builtins` of safe_eval.py: the whitelist of allowed builtins,
verbatim from the source. -/
def allowed_builtins : List String :=
  ["ArithmeticError", "AttributeError", "BaseException", "Exception",
   "False", "FloatingPointError", "IndexError", "KeyError", "NameError",
   "None", "OverflowError", "RuntimeError", "StandardError",
   "StopIteration", "True", "TypeError", "ValueError", "ZeroDivisionError",
   "abs", "all", "any", "apply", "basestring", "bin", "bool", "bytes",
   "callable", "chr", "cmp", "complex", "dict", "divmod", "enumerate",
   "filter", "float", "format", "frozenset", "hash", "hex", "id", "int",
   "isinstance", "issubclass", "iter", "len", "list", "long", "map", "max",
   "min", "next", "object", "oct", "ord", "pow", "print", "property",
   "range", "reduce", "repr", "reversed", "round", "set", "slice",
   "sorted", "str", "sum", "tuple", "unichr", "unicode", "xrange", "zip"]

/-- Modelled from the spec: the source computes
`set(__builtin__.__dict__.keys()) - allowed_builtins`, where
`__builtin__.__dict__.keys()` is the full set of names exposed by the host
runtime's (Python 2) global builtin namespace, which is outside the
repository.  This list models that ambient namespace: the CPython 2.7
builtin names (exception types, constants, and functions, among them the
whole allowlist and the I/O and introspection names such as `open`,
`eval`, `execfile`, `getattr`, `globals`). -/
def host_builtins : List String :=
  ["ArithmeticError", "AssertionError", "AttributeError", "BaseException",
   "BufferError", "BytesWarning", "DeprecationWarning", "EOFError",
   "Ellipsis", "EnvironmentError", "Exception", "False",
   "FloatingPointError", "FutureWarning", "GeneratorExit", "IOError",
   "ImportError", "ImportWarning", "IndentationError", "IndexError",
   "KeyError", "KeyboardInterrupt", "LookupError", "MemoryError",
   "NameError", "None", "NotImplemented", "NotImplementedError", "OSError",
   "OverflowError", "PendingDeprecationWarning", "ReferenceError",
   "RuntimeError", "RuntimeWarning", "StandardError", "StopIteration",
   "SyntaxError", "SyntaxWarning", "SystemError", "SystemExit", "TabError",
   "True", "TypeError", "UnboundLocalError", "UnicodeDecodeError",
   "UnicodeEncodeError", "UnicodeError", "UnicodeTranslateError",
   "UnicodeWarning", "UserWarning", "ValueError", "Warning",
   "ZeroDivisionError", "__debug__", "__doc__", "__import__", "__name__",
   "__package__", "abs", "all", "any", "apply", "basestring", "bin",
   "bool", "buffer", "bytearray", "bytes", "callable", "chr",
   "classmethod", "cmp", "coerce", "compile", "complex", "copyright",
   "credits", "delattr", "dict", "dir", "divmod", "enumerate", "eval",
   "execfile", "exit", "file", "filter", "float", "format", "frozenset",
   "getattr", "globals", "hasattr", "hash", "help", "hex", "id", "input",
   "int", "intern", "isinstance", "issubclass", "iter", "len", "license",
   "list", "locals", "long", "map", "max", "memoryview", "min", "next",
   "object", "oct", "open", "ord", "pow", "print", "property", "quit",
   "range", "raw_input", "reduce", "reload", "repr", "reversed", "round",
   "set", "setattr", "slice", "sorted", "staticmethod", "str", "sum",
   "super", "tuple", "type", "unichr", "unicode", "vars", "xrange", "zip"]

/-- The subtraction `set(builtins) - allowed_builtins` of safe_eval.py,
parametric in the ambient builtin namespace. -/
def forbidden_builtins_of (builtins : List String) : List String :=
  builtins.filter (fun n => !(allowed_builtins.contains n))

/-- Definition `forbidden_builtins` of safe_eval.py: the blacklist obtained by
subtracting the whitelist from the host's builtin namespace. -/
def forbidden_builtins : List String :=
  forbidden_builtins_of host_builtins

/-- Exception class `SafeEvalException` of safe_eval.py, with one constructor per `raise`
site, carrying the data interpolated into the message. -/
inductive SafeEvalException where
  /-- Raised by `generic_visit`: "%s not safe" naming the node type -/
  | notSafe (kind : String)
  /-- Raised by `visit_Name`: access to special names not allowed, naming the id -/
  | specialName (id : String)
  /-- Raised by `visit_Call`: "Function has no identifier" -/
  | noIdentifier
  /-- Raised by `visit_Call`: access to special functions, naming the id -/
  | specialFunction (id : String)
  /-- Raised by `visit_Attribute`: special attributes, naming the member -/
  | specialAttribute (attr : String)
deriving DecidableEq

/-- The test of `visit_Name` (and of `visit_Call` on the callee's id):
`name.id[:2] == '__' or name.id in forbidden_builtins`. -/
def nameViolates (id : String) : Bool :=
  id.take 2 == "__" || forbidden_builtins.contains id

/-- The test of `visit_Attribute`: `attr.attr[:2] == '__' or
attr.attr[:5] == 'func_' or attr.attr[:3] == 'im_' or
attr.attr[:3] == 'tb_'`. -/
def attrViolates (attr : String) : Bool :=
  attr.take 2 == "__" || attr.take 5 == "func_" ||
  attr.take 3 == "im_" || attr.take 3 == "tb_"

/-- Test `hasattr(call.func, 'id')`: only `ast.Name` nodes carry an `id`. -/
def hasId : AST → Bool
  | .Name _ => true
  | _ => false

mutual

/-- Method `CheckNodeVisitor.visit` of safe_eval.py.  Dispatch goes to
`visit_Name`, `visit_Call` or `visit_Attribute` when one matches the node's
type, and to `generic_visit` otherwise; each raise becomes an
`Except.error`.  The methods end by calling `generic_visit` on the node
itself, which checks the node's type against `forbidden_nodes` (never a hit
for Name/Call/Attribute) and visits the children in field order. -/
def visit : AST → Except SafeEvalException Unit
  | .Name id =>
      if nameViolates id then .error (.specialName id)
      else .ok ()
  | .Call func args =>
      match func with
      | .Name id =>
          if nameViolates id then .error (.specialFunction id)
          else do
            visit (.Name id)
            visitList args
      | .Call _ _ => .error .noIdentifier
      | .Attribute _ _ => .error .noIdentifier
      | .node _ _ => .error .noIdentifier
  | .Attribute value attr =>
      if attrViolates attr then .error (.specialAttribute attr)
      else visit value
  | .node kind children =>
      if forbidden_nodes.contains kind then .error (.notSafe kind)
      else visitList children

/-- Loop of `ast.NodeVisitor.generic_visit` over the child nodes. -/
def visitList : ASTList → Except SafeEvalException Unit
  | .nil => .ok ()
  | .cons head tail => do
      visit head
      visitList tail

end

/-- Evaluation mode: `'eval'` (single expression) or `'exec'` (statement
sequence), as accepted by `compileChecked`. -/
inductive Mode where
  | eval
  | exec
deriving DecidableEq, BEq

/-- The two error kinds `compileChecked` can surface.  A parse failure is
re-raised as `ValueError` ("Unable to parse file: %s"), a distinct type
from `SafeEvalException`. -/
inductive CompileError where
  | parseError (msg : String)
  | safetyViolation (e : SafeEvalException)
deriving DecidableEq

/-- Entry point `compileChecked` of safe_eval.py.  Parsing is done by the host's
`ast.parse(code, filename, mode)`, outside the repository; the embedding
takes that call's outcome (`Except` diagnostic-text tree) as its argument.
The final `compile(tree, filename, mode)` produces the code object, which
we model by the checked tree itself. -/
def compileChecked (parsed : Except String AST) (ignoresecurity : Bool) :
    Except CompileError AST :=
  match parsed with
  | .error e => .error (.parseError ("Unable to parse file: " ++ e))
  | .ok tree =>
      if ignoresecurity then .ok tree
      else
        match visit tree with
        | .error v => .error (.safetyViolation v)
        | .ok _ => .ok tree

/-!
Reference semantics for the fail-fast claim: the Guard's outcome equals the
first local violation in a depth-first, pre-order walk of the full tree.
`localViolation` gives the violation a node's own rule raises (independent
of its children); `preorder` lists every node of the tree in the order the
visitor would reach them.
-/

/-- The violation node `t` itself triggers, by the rule the visitor applies
to `t`'s type, before any recursion into children. -/
def localViolation : AST → Option SafeEvalException
  | .Name id =>
      if nameViolates id then some (.specialName id) else none
  | .Call func _ =>
      match func with
      | .Name id =>
          if nameViolates id then some (.specialFunction id) else none
      | _ => some .noIdentifier
  | .Attribute _ attr =>
      if attrViolates attr then some (.specialAttribute attr) else none
  | .node kind _ =>
      if forbidden_nodes.contains kind then some (.notSafe kind) else none

mutual

/-- Depth-first pre-order listing of the nodes of a tree: the node itself,
then its children's listings in field order. -/
def preorder : AST → List AST
  | .Name id => [.Name id]
  | .Call func args => .Call func args :: (preorder func ++ preorderList args)
  | .Attribute value attr => .Attribute value attr :: preorder value
  | .node kind children => .node kind children :: preorderList children

/-- Pre-order listing of a child list. -/
def preorderList : ASTList → List AST
  | .nil => []
  | .cons head tail => preorder head ++ preorderList tail

end

/-- The first violation in depth-first pre-order, over the whole tree. -/
def firstViolation (t : AST) : Option SafeEvalException :=
  (preorder t).findSome? localViolation

/-- Repackage an optional violation as the visitor's outcome. -/
def ofViolation : Option SafeEvalException → Except SafeEvalException Unit
  | some e => .error e
  | none => .ok ()

mutual

/-- The visitor returns exactly the first pre-order local violation. -/
theorem visit_eq_firstViolation (t : AST) :
    visit t = ofViolation (firstViolation t) := by
  cases t with
  | Name id =>
      simp only [visit, firstViolation, preorder, List.findSome?_cons,
        localViolation, ofViolation]
      cases h : nameViolates id <;> simp [h, ofViolation]
  | Call func args =>
      cases func with
      | Name id =>
          simp only [visit, firstViolation, preorder, List.findSome?_cons,
            localViolation]
          cases h : nameViolates id with
          | true => simp [h, ofViolation]
          | false =>
              have hf := visit_eq_firstViolation (.Name id)
              simp only [firstViolation, preorder, List.findSome?_cons,
                localViolation, h] at hf
              simp only [h, if_false, List.findSome?_append,
                firstViolation, preorder, List.findSome?_cons,
                localViolation]
              simp only [visit, h, if_false] at hf ⊢
              have hl := visitList_eq_firstViolation args
              cases hargs : (preorderList args).findSome? localViolation with
              | some e => simp [hargs, ofViolation] at hl ⊢; simp [hl, Bind.bind, Except.bind]
              | none => simp [hargs, ofViolation] at hl ⊢; simp [hl, Bind.bind, Except.bind]
      | Call f a =>
          simp [visit, firstViolation, preorder, List.findSome?_cons,
            localViolation, ofViolation]
      | Attribute v s =>
          simp [visit, firstViolation, preorder, List.findSome?_cons,
            localViolation, ofViolation]
      | node k c =>
          simp [visit, firstViolation, preorder, List.findSome?_cons,
            localViolation, ofViolation]
  | Attribute value attr =>
      simp only [visit, firstViolation, preorder, List.findSome?_cons,
        localViolation]
      cases h : attrViolates attr with
      | true => simp [h, ofViolation]
      | false =>
          have hv := visit_eq_firstViolation value
          simp [h, ofViolation, firstViolation] at hv ⊢
          exact hv
  | node kind children =>
      simp only [visit, firstViolation, preorder, List.findSome?_cons,
        localViolation]
      cases h : forbidden_nodes.contains kind with
      | true => simp [h, ofViolation]
      | false =>
          have hc := visitList_eq_firstViolation children
          simp [h, ofViolation] at hc ⊢
          exact hc

/-- List version of `visit_eq_firstViolation`. -/
theorem visitList_eq_firstViolation (l : ASTList) :
    visitList l = ofViolation ((preorderList l).findSome? localViolation) := by
  cases l with
  | nil => simp [visitList, preorderList, ofViolation]
  | cons head tail =>
      have hh := visit_eq_firstViolation head
      have ht := visitList_eq_firstViolation tail
      simp only [visitList, preorderList, List.findSome?_append]
      cases hfh : firstViolation head with
      | some e =>
          simp only [firstViolation] at hfh
          simp [hfh, ofViolation, firstViolation] at hh ⊢
          simp [hh, Bind.bind, Except.bind]
      | none =>
          simp only [firstViolation] at hfh
          simp [hfh, ofViolation, firstViolation] at hh ⊢
          simp [hh, Bind.bind, Except.bind]
          cases hft : (preorderList tail).findSome? localViolation with
          | some e => simp [hft, ofViolation] at ht ⊢; exact ht
          | none => simp [hft, ofViolation] at ht ⊢; exact ht

end

/-- If some node of the tree has a local violation, the visitor errors. -/
theorem visit_error_of_violation {t a : AST} {e : SafeEvalException}
    (hmem : a ∈ preorder t) (hv : localViolation a = some e) :
    ∃ v, visit t = Except.error v := by
  rw [visit_eq_firstViolation]
  cases hfv : firstViolation t with
  | some v => exact ⟨v, rfl⟩
  | none =>
      exfalso
      simp only [firstViolation, List.findSome?_eq_none_iff] at hfv
      have := hfv a hmem
      rw [hv] at this
      exact Option.noConfusion this

/-- If some node of the tree has a local violation, `compileChecked`
without the skip flag surfaces a `SafetyViolation`. -/
theorem compile_error_of_violation {t a : AST} {e : SafeEvalException}
    (hmem : a ∈ preorder t) (hv : localViolation a = some e) :
    ∃ v, compileChecked (.ok t) false = .error (.safetyViolation v) := by
  obtain ⟨v, hvis⟩ := visit_error_of_violation hmem hv
  exact ⟨v, by simp [compileChecked, hvis]⟩

/-!
The spec's concrete scenarios.  The host parser `ast.parse` is outside the
repository; the trees and the parse diagnostic below are modelled from the
spec's scenario list, with the shapes the Python 2 `ast` grammar gives.
-/

/-- Abbreviation for list-literal child lists. -/
def ASTList.ofList : List AST → ASTList
  | [] => .nil
  | a :: rest => .cons a (ASTList.ofList rest)

/-- Modelled from the spec: host parse tree of `"x + y * 2"` in eval mode,
`Expression(BinOp(Name('x'), Add, BinOp(Name('y'), Mult, Num(2))))`. -/
def tree_x_plus_y_times_2 : AST :=
  .node "Expression" (.cons
    (.node "BinOp" (ASTList.ofList
      [.Name "x", .node "Add" .nil,
       .node "BinOp" (ASTList.ofList
         [.Name "y", .node "Mult" .nil, .node "Num" .nil])]))
    .nil)

/-- Modelled from the spec: host parse tree of `"open('/etc/passwd')"` in
eval mode, `Expression(Call(Name('open'), [Str]))`. -/
def tree_open_passwd : AST :=
  .node "Expression" (.cons
    (.Call (.Name "open") (.cons (.node "Str" .nil) .nil))
    .nil)

/-- Modelled from the spec: host parse tree of `"import os"` in exec mode,
`Module([Import([alias('os')])])`. -/
def tree_import_os : AST :=
  .node "Module" (.cons
    (.node "Import" (.cons (.node "alias" .nil) .nil))
    .nil)

/-- Modelled from the spec: host parse tree of `"x.__class__"` in eval
mode, `Expression(Attribute(Name('x'), '__class__'))`. -/
def tree_x_dunder_class : AST :=
  .node "Expression" (.cons (.Attribute (.Name "x") "__class__") .nil)

/-- Modelled from the spec: host parse tree of `"x.upper()"` in eval mode,
`Expression(Call(Attribute(Name('x'), 'upper'), []))`. -/
def tree_x_upper_call : AST :=
  .node "Expression" (.cons
    (.Call (.Attribute (.Name "x") "upper") .nil)
    .nil)

/-- Modelled from the spec: the text of the `SyntaxError` the host parser
raises on invalid input; `unicode(e)` of a Python `SyntaxError` reads
`detail (filename, line N)`, so it references the supplied filename. -/
def syntaxErrorText (detail filename : String) : String :=
  detail ++ " (" ++ filename ++ ", line 1)"

/-- Modelled from the spec: `ast.parse(code, filename, mode)` of the host,
restricted to the spec's concrete scenarios; every other input is reported
as a parse failure whose diagnostic this model does not constrain. -/
def hostParse (code filename : String) (mode : Mode) : Except String AST :=
  if code == "x + y * 2" && mode == Mode.eval then
    .ok tree_x_plus_y_times_2
  else if code == "open('/etc/passwd')" && mode == Mode.eval then
    .ok tree_open_passwd
  else if code == "import os" && mode == Mode.exec then
    .ok tree_import_os
  else if code == "x.__class__" && mode == Mode.eval then
    .ok tree_x_dunder_class
  else if code == "x.upper()" && mode == Mode.eval then
    .ok tree_x_upper_call
  else
    .error (syntaxErrorText "invalid syntax" filename)

/-- Substring predicate: `sub` occurs contiguously in `s`. -/
def strContains (s sub : String) : Prop :=
  ∃ pre post, s.data = pre ++ sub.data ++ post

deriving instance DecidableEq for Except

/-- Wrapping on the left preserves substrings: `sub` in `s` stays in `p ++ s`. -/
theorem strContains_append_left (p s sub : String)
    (h : strContains s sub) : strContains (p ++ s) sub := by
  obtain ⟨pre, post, hpq⟩ := h
  exact ⟨p.data ++ pre, post, by
    simp only [String.data_append, hpq, List.append_assoc]⟩

/-- C1: for every identifier `n` beginning with `__` or in
`forbidden_builtins`, a bare `Name` reference to `n` raises the
special-names violation naming `n`, a `Call` whose target is `Name n`
raises the special-functions violation naming `n`, and `compileChecked`
without the skip flag fails with a `SafetyViolation` on any tree containing
such a reference; a bare name meeting neither condition passes the name
rule. -/
theorem name_rule (n : String)
    (h : n.take 2 = "__" ∨ n ∈ forbidden_builtins) :
    visit (AST.Name n) = .error (.specialName n) ∧
    (∀ args, visit (AST.Call (.Name n) args) = .error (.specialFunction n)) ∧
    (∀ t, AST.Name n ∈ preorder t →
      ∃ v, compileChecked (.ok t) false = .error (.safetyViolation v)) ∧
    (∀ t args, AST.Call (.Name n) args ∈ preorder t →
      ∃ v, compileChecked (.ok t) false = .error (.safetyViolation v)) ∧
    (∀ m : String, ¬(m.take 2 = "__" ∨ m ∈ forbidden_builtins) →
      visit (AST.Name m) = .ok ()) := by
  have hv : nameViolates n = true := by
    simp only [nameViolates, Bool.or_eq_true, beq_iff_eq, List.contains_eq_any_beq,
      List.any_eq_true, beq_iff_eq]
    rcases h with h | h
    · exact Or.inl h
    · exact Or.inr ⟨n, h, rfl⟩
  refine ⟨by simp [visit, hv], fun args => by simp [visit, hv],
    fun t hmem => compile_error_of_violation hmem
      (show localViolation (AST.Name n) = some (.specialName n) by
        simp [localViolation, hv]),
    fun t args hmem => compile_error_of_violation hmem
      (show localViolation (AST.Call (.Name n) args) = some (.specialFunction n) by
        simp [localViolation, hv]),
    fun m hm => ?_⟩
  have hmv : nameViolates m = false := by
    simp only [nameViolates, Bool.or_eq_false_iff, beq_eq_false_iff_ne, ne_eq,
      List.contains_eq_any_beq, List.any_eq_false, beq_iff_eq]
    push_neg at hm
    exact ⟨hm.1, fun x hx hxm => hm.2 (hxm ▸ hx)⟩
  simp [visit, hmv]

/-- C1 witness: `__import__` and `open` are forbidden names; `x` is not. -/
theorem name_rule_witness :
    visit (AST.Name "__import__") = .error (.specialName "__import__") ∧
    visit (AST.Call (.Name "open") (.cons (.node "Str" .nil) .nil)) =
      .error (.specialFunction "open") ∧
    visit (AST.Name "x") = .ok () :=
  ⟨(name_rule "__import__" (Or.inl (by decide))).1,
   (name_rule "open" (Or.inr (by decide))).2.1 (.cons (.node "Str" .nil) .nil),
   (name_rule "open" (Or.inr (by decide))).2.2.2.2 "x" (by decide)⟩

/-- C2: for every node type in `forbidden_nodes`, visiting a node of that
type raises the violation naming the type, whatever its children, and
`compileChecked` without the skip flag fails with a `SafetyViolation` on
any tree containing such a node, wherever it appears. -/
theorem forbidden_node_rule (k : String)
    (h : k ∈ forbidden_nodes) :
    (∀ children, visit (AST.node k children) = .error (.notSafe k)) ∧
    (∀ t children, AST.node k children ∈ preorder t →
      ∃ v, compileChecked (.ok t) false = .error (.safetyViolation v)) := by
  have hk : forbidden_nodes.contains k = true := by
    simp only [List.contains_eq_any_beq, List.any_eq_true, beq_iff_eq]
    exact ⟨k, h, rfl⟩
  exact ⟨fun children => by simp only [visit, hk, if_true],
    fun t children hmem => compile_error_of_violation hmem
      (show localViolation (AST.node k children) = some (.notSafe k) by
        simp only [localViolation, hk, if_true])⟩

/-- C2 witness: `Import` is forbidden; `"import os"` is rejected even
though the `Import` node sits inside a `Module` node. -/
theorem forbidden_node_rule_witness :
    visit (AST.node "Import" (.cons (.node "alias" .nil) .nil)) =
      .error (.notSafe "Import") ∧
    ∃ v, compileChecked (.ok tree_import_os) false =
      .error (.safetyViolation v) :=
  ⟨(forbidden_node_rule "Import" (by decide)).1 (.cons (.node "alias" .nil) .nil),
   (forbidden_node_rule "Import" (by decide)).2 tree_import_os
     (.cons (.node "alias" .nil) .nil) (by decide)⟩

/-- C3: for every member name beginning with `__`, `func_`, `im_` or
`tb_`, an attribute access to that member raises the special-attributes
violation naming the member, for every base expression, and
`compileChecked` without the skip flag fails with a `SafetyViolation` on
any tree containing such an access. -/
theorem attribute_rule (a : String)
    (h : a.take 2 = "__" ∨ a.take 5 = "func_" ∨
         a.take 3 = "im_" ∨ a.take 3 = "tb_") :
    (∀ x, visit (AST.Attribute x a) = .error (.specialAttribute a)) ∧
    (∀ t x, AST.Attribute x a ∈ preorder t →
      ∃ v, compileChecked (.ok t) false = .error (.safetyViolation v)) := by
  have ha : attrViolates a = true := by
    simp only [attrViolates, Bool.or_eq_true, beq_iff_eq]
    rcases h with h | h | h | h
    · exact Or.inl (Or.inl (Or.inl h))
    · exact Or.inl (Or.inl (Or.inr h))
    · exact Or.inl (Or.inr h)
    · exact Or.inr h
  exact ⟨fun x => by simp only [visit, ha, if_true],
    fun t x hmem => compile_error_of_violation hmem
      (show localViolation (AST.Attribute x a) = some (.specialAttribute a) by
        simp only [localViolation, ha, if_true])⟩

/-- C3 witness: `"x.__class__"` is rejected naming `__class__`. -/
theorem attribute_rule_witness :
    visit (AST.Attribute (.Name "x") "__class__") =
      .error (.specialAttribute "__class__") ∧
    ∃ v, compileChecked (.ok tree_x_dunder_class) false =
      .error (.safetyViolation v) :=
  ⟨(attribute_rule "__class__" (Or.inl (by decide))).1 (.Name "x"),
   (attribute_rule "__class__" (Or.inl (by decide))).2 tree_x_dunder_class
     (.Name "x") (by decide)⟩

/-- C4: a call whose target carries no identifier (is not a bare `Name`)
raises the no-identifier violation, and `compileChecked` without the skip
flag fails with a `SafetyViolation` on any tree containing such a call; in
particular `"x.upper()"` is rejected with the no-identifier violation even
though the member `upper` passes the attribute rule. -/
theorem call_target_rule :
    (∀ func args, hasId func = false →
      visit (AST.Call func args) = .error .noIdentifier) ∧
    (∀ t func args, hasId func = false → AST.Call func args ∈ preorder t →
      ∃ v, compileChecked (.ok t) false = .error (.safetyViolation v)) ∧
    attrViolates "upper" = false ∧
    compileChecked (hostParse "x.upper()" "<string>" Mode.eval) false =
      .error (.safetyViolation .noIdentifier) := by
  refine ⟨fun func args hfunc => ?_, fun t func args hfunc hmem => ?_,
    by decide, by decide⟩
  · cases func with
    | Name id => simp [hasId] at hfunc
    | Call f a => simp [visit]
    | Attribute v s => simp [visit]
    | node k c => simp [visit]
  · refine compile_error_of_violation hmem
      (show localViolation (AST.Call func args) = some .noIdentifier from ?_)
    cases func with
    | Name id => simp [hasId] at hfunc
    | Call f a => simp [localViolation]
    | Attribute v s => simp [localViolation]
    | node k c => simp [localViolation]

/-- C4 witness: the call node of `"x.upper()"` has an attribute-access
target, so the guard rejects the whole tree. -/
theorem call_target_rule_witness :
    visit (AST.Call (.Attribute (.Name "x") "upper") .nil) =
      .error .noIdentifier ∧
    ∃ v, compileChecked (.ok tree_x_upper_call) false =
      .error (.safetyViolation v) :=
  ⟨call_target_rule.1 (.Attribute (.Name "x") "upper") .nil (by decide),
   call_target_rule.2.1 tree_x_upper_call (.Attribute (.Name "x") "upper")
     .nil (by decide) (by decide)⟩

/-- C5: `forbidden_builtins` is the subtraction of the whitelist from the
ambient builtin namespace: every builtin name not in `allowed_builtins`
is a member (fail-closed, for any ambient namespace), no allowed name is a
member, and in particular `open` is a member, so compiling
`"open('/etc/passwd')"` without the skip flag raises the safety violation
naming `open`. -/
theorem forbidden_builtins_subtraction :
    (∀ builtins : List String, ∀ n, n ∈ builtins → n ∉ allowed_builtins →
      n ∈ forbidden_builtins_of builtins) ∧
    (∀ n, n ∈ allowed_builtins → n ∉ forbidden_builtins) ∧
    "open" ∈ forbidden_builtins ∧
    compileChecked (hostParse "open('/etc/passwd')" "<string>" Mode.eval)
      false = .error (.safetyViolation (.specialFunction "open")) := by
  refine ⟨fun builtins n hmem hnot => ?_, fun n hmem hcontra => ?_,
    by decide, by decide⟩
  · refine List.mem_filter.mpr ⟨hmem, ?_⟩
    simp only [Bool.not_eq_true', List.contains_eq_any_beq,
      List.any_eq_false, beq_iff_eq]
    exact fun x hx hxn => hnot (hxn ▸ hx)
  · obtain ⟨-, hp⟩ :=
      List.mem_filter.mp (by exact hcontra :
        n ∈ host_builtins.filter (fun m => !(allowed_builtins.contains m)))
    simp only [Bool.not_eq_true', List.contains_eq_any_beq,
      List.any_eq_false, beq_iff_eq] at hp
    exact hp n hmem rfl

/-- C5 witness: `open` is a host builtin outside the whitelist, hence
forbidden; `abs` is whitelisted, hence not forbidden. -/
theorem forbidden_builtins_subtraction_witness :
    "open" ∈ forbidden_builtins_of host_builtins ∧
    "abs" ∉ forbidden_builtins :=
  ⟨forbidden_builtins_subtraction.1 host_builtins "open" (by decide) (by decide),
   forbidden_builtins_subtraction.2.1 "abs" (by decide)⟩

/-- C6: with `ignoresecurity = true`, no Guard check runs: every parsed
tree compiles whatever it contains, while a parse failure is still
reported as the wrapped parse error. -/
theorem skip_security_check :
    (∀ t : AST, compileChecked (.ok t) true = .ok t) ∧
    (∀ e : String, compileChecked (.error e) true =
      .error (.parseError ("Unable to parse file: " ++ e))) :=
  ⟨fun _ => rfl, fun _ => rfl⟩

/-- C7: a parse failure surfaces as a `parseError`, a different constructor
from `safetyViolation`, whose message wraps the parser's diagnostic text;
wrapping preserves any substring of the diagnostic, and for `"(1+"` the
host diagnostic carries the supplied filename, so the final message
references the filename. -/
theorem parse_error_distinct :
    (∀ (e : String) (ig : Bool), compileChecked (.error e) ig =
      .error (.parseError ("Unable to parse file: " ++ e))) ∧
    (∀ (m : String) (v : SafeEvalException),
      CompileError.parseError m ≠ CompileError.safetyViolation v) ∧
    (∀ e sub : String, strContains e sub →
      strContains ("Unable to parse file: " ++ e) sub) ∧
    (∀ f : String,
      hostParse "(1+" f Mode.eval =
        .error (syntaxErrorText "invalid syntax" f) ∧
      compileChecked (hostParse "(1+" f Mode.eval) false =
        .error (.parseError
          ("Unable to parse file: " ++ syntaxErrorText "invalid syntax" f)) ∧
      strContains
        ("Unable to parse file: " ++ syntaxErrorText "invalid syntax" f) f) := by
  refine ⟨fun e ig => by cases ig <;> rfl,
    fun m v h => CompileError.noConfusion h,
    fun e sub h => strContains_append_left _ e sub h,
    fun f => ⟨rfl, rfl, ?_⟩⟩
  refine ⟨("Unable to parse file: invalid syntax (" : String).data,
    (", line 1)" : String).data, ?_⟩
  simp only [syntaxErrorText, String.data_append, List.append_assoc]
  rfl

/-- C7 witness: at the diagnostic `"bad (f.vsz, line 1)"` and substring
`"f.vsz"`, wrapping preserves the substring; the `"(1+"` scenario holds at
filename `"f.vsz"`. -/
theorem parse_error_distinct_witness :
    strContains ("Unable to parse file: " ++ "bad (f.vsz, line 1)") "f.vsz" ∧
    strContains
      ("Unable to parse file: " ++ syntaxErrorText "invalid syntax" "f.vsz")
      "f.vsz" :=
  ⟨parse_error_distinct.2.2.1 "bad (f.vsz, line 1)" "f.vsz"
     ⟨("bad (" : String).data, (", line 1)" : String).data, rfl⟩,
   (parse_error_distinct.2.2.2 "f.vsz").2.2⟩

/-- C8: the Guard is fail-fast: its outcome on any tree is exactly the
first local violation found along the depth-first pre-order node listing
(`List.findSome?` returns the first hit); when no node violates its rule
the pass succeeds, and the outcome type carries at most one violation, so
no collection of violations is ever reported. -/
theorem guard_fail_fast (t : AST) :
    visit t = ofViolation ((preorder t).findSome? localViolation) :=
  visit_eq_firstViolation t

/-- C9: a node whose type is not forbidden and that is not a Name, Call or
Attribute is permitted, the traversal recursing into its children; in
particular `"x + y * 2"` in eval mode without the skip flag compiles,
every node of its tree passing its rule. -/
theorem default_continuation :
    (∀ kind children, forbidden_nodes.contains kind = false →
      visit (AST.node kind children) = visitList children) ∧
    visit tree_x_plus_y_times_2 = .ok () ∧
    compileChecked (hostParse "x + y * 2" "<string>" Mode.eval) false =
      .ok tree_x_plus_y_times_2 := by
  refine ⟨fun kind children hk => ?_, by decide, by decide⟩
  simp only [visit, hk]
  rfl

/-- C9 witness: `BinOp` is not a forbidden node type, so visiting a
`BinOp` node reduces to visiting its children. -/
theorem default_continuation_witness :
    visit (AST.node "BinOp" (.cons (.Name "x") .nil)) =
      visitList (.cons (.Name "x") .nil) :=
  default_continuation.1 "BinOp" (.cons (.Name "x") .nil) (by decide)

/-- C10: the attribute rule tests only the four member-name prefixes and
never consults `forbidden_builtins`: when the member name carries none of
the prefixes, the access node itself raises nothing and the visit reduces
to the base expression's visit, even for a member name (such as `open`)
that is itself in `forbidden_builtins`. -/
theorem attribute_rule_prefix_only :
    (∀ a : String, attrViolates a = false →
      ∀ x, localViolation (AST.Attribute x a) = none ∧
        visit (AST.Attribute x a) = visit x) ∧
    attrViolates "open" = false ∧
    "open" ∈ forbidden_builtins ∧
    visit (AST.Attribute (.Name "x") "open") = .ok () := by
  refine ⟨fun a ha x => ⟨?_, ?_⟩, by decide, by decide, by decide⟩
  · simp only [localViolation, ha]
    rfl
  · simp only [visit, ha]
    rfl

/-- C10 witness: the member `upper` has no reserved prefix, so an access
to it adds no violation. -/
theorem attribute_rule_prefix_only_witness :
    localViolation (AST.Attribute (.Name "y") "upper") = none ∧
    visit (AST.Attribute (.Name "y") "upper") = visit (AST.Name "y") :=
  attribute_rule_prefix_only.1 "upper" (by decide) (.Name "y")
